import Mathlib

/-!
Verification of the beam-search orchestration engine and Tower of Hanoi domain
of the `llm_tower_of_haoi` repository.

The Python sources are shallowly embedded:
* `models.py` pydantic models become Lean structures; scores (Python floats,
  used only for ordering and threshold comparison) are modelled as rationals;
* `tasks/tower_of_hanoi.py`: `TowerOfHanoiState` has a `state_data` payload
  modelled as an insertion-ordered association list (a Python `dict`),
  mirroring dict semantics (unique keys, order preserved); the `parent`
  back-reference is write-only in the sources (lineage only, never read by the
  engine or the domain), so it is omitted from the structure;
* `core.py`: the history limiter, the sequential/batch evaluators, the ranker
  coercion `to_model`, and the `solve` beam-search loop.  The external LLM
  oracles are parameters (arbitrary functions); a call that raises is
  modelled with `Except`, and duck-typed attribute access (`hasattr` /
  `getattr` with default) is modelled with `Option` fields.
* Python `print` telemetry, the wall-clock timing, and the `states_explored` /
  `beam_replenishments` counters have no effect on any returned value and are
  not modelled.
-/

/-! ## models.py -/

/-- The three pegs: the `Literal["A", "B", "C"]` type of `MoveModel`'s fields. -/
inductive Peg where
  | A
  | B
  | C
deriving DecidableEq

/-- String value of a peg literal, for `dict` key lookups (`state_data` keys
are Python strings). -/
def pegStr : Peg → String
  | .A => "A"
  | .B => "B"
  | .C => "C"

/-- `models.MoveModel`: `from_tower: Literal["A","B","C"]`, `to_tower: Literal["A","B","C"]`. -/
structure MoveModel where
  from_tower : Peg
  to_tower : Peg
deriving DecidableEq

/-- `models.TowersModel`: the structured state handed to the oracle. -/
structure TowersModel where
  A : List Int
  B : List Int
  C : List Int
deriving DecidableEq

/-- `models.HistoricalEvaluationModel`: one record of a state's evaluation
history.  Python `float` scores are modelled as rationals. -/
structure HistoricalEvaluationModel where
  state_description : String
  score : ℚ
  reasoning : String
  depth : Nat
deriving DecidableEq

/-! ## Serialization (`str(state_data)`)

The engine dedups states by `str(state.state_data)` where `state_data` is a
`Dict[str, List[int]]`.  We implement the Python `repr` of such a dict
directly (`"{'A': [3, 2, 1], 'B': []}"`), so visited-set keys and
evaluation-history keys are the very strings Python compares. -/

/-- Python `repr` of a `List[int]` value. -/
def reprIntList (l : List Int) : String :=
  "[" ++ String.intercalate ", " (l.map toString) ++ "]"

/-- Python `str`/`repr` of a `Dict[str, List[int]]` in insertion order. -/
def reprData (d : List (String × List Int)) : String :=
  "\x7b" ++
    String.intercalate ", " (d.map (fun kv => "'" ++ kv.1 ++ "': " ++ reprIntList kv.2)) ++
    "\x7d"

/-! ## tasks/tower_of_hanoi.py -/

/-- `TowerOfHanoiState` (a `GenericState`): payload, accumulated moves, depth
and the append-only evaluation history.  The `parent` field of the dataclass
is only ever written (lineage), never read, and is omitted. -/
structure TowerOfHanoiState where
  state_data : List (String × List Int)
  moves_made : List MoveModel := []
  depth : Nat := 0
  evaluation_history : List HistoricalEvaluationModel := []
deriving DecidableEq

/-- `self.state_data[t]` where the sources have already ensured the key is
present; a missing key (which would raise `KeyError` in Python) defaults to
`[]` to keep the model total. -/
def towerOf (s : TowerOfHanoiState) (t : String) : List Int :=
  (s.state_data.lookup t).getD []

/-- `list(range(num_disks, 0, -1))`: the full stack `[n, ..., 2, 1]`. -/
def fullStack (num_disks : Nat) : List Int :=
  (List.range num_disks).reverse.map (fun n => (n : Int) + 1)

/-- `TowerOfHanoiState.is_goal`: all disks on tower `"C"` in order.
(The print diagnostics are dropped; a state lacking key `"C"` would raise in
Python and defaults to the empty tower here.) -/
def is_goal (s : TowerOfHanoiState) : Bool :=
  let num_disks := (s.state_data.map (fun kv => kv.2.length)).sum
  let target := towerOf s "C"
  target.length == num_disks && target == fullStack num_disks

/-- `TowerOfHanoiState.get_valid_actions`: iterate source pegs `A, B, C`,
skip empty sources, and for each distinct destination allow the move when the
destination is empty or its top disk is larger than the moved disk. -/
def get_valid_actions (s : TowerOfHanoiState) : List MoveModel :=
  [Peg.A, Peg.B, Peg.C].flatMap fun ft =>
    let from_stack := towerOf s (pegStr ft)
    if from_stack.isEmpty then []
    else
      let top_disk := from_stack.getLast?.getD 0
      [Peg.A, Peg.B, Peg.C].filterMap fun tt =>
        if ft = tt then none
        else
          let to_stack := towerOf s (pegStr tt)
          if to_stack.isEmpty then some ⟨ft, tt⟩
          else if top_disk < to_stack.getLast?.getD 0 then some ⟨ft, tt⟩
          else none

/-- `TowerOfHanoiState.is_valid_action`: towers must exist in the payload,
the source tower must be non-empty, and the moved disk must not land on a
smaller one. -/
def is_valid_action (s : TowerOfHanoiState) (action : MoveModel) : Bool :=
  if (s.state_data.lookup (pegStr action.from_tower)).isNone
      || (s.state_data.lookup (pegStr action.to_tower)).isNone then
    false
  else if (towerOf s (pegStr action.from_tower)).isEmpty then
    false
  else
    let from_disk := (towerOf s (pegStr action.from_tower)).getLast?.getD 0
    let to_stack := towerOf s (pegStr action.to_tower)
    if !to_stack.isEmpty && from_disk ≥ to_stack.getLast?.getD 0 then false
    else true

/-- Dict value assignment `d[k] = v` for a present key: replace the value at
the (unique) occurrence of `k`, preserving insertion order. -/
def updateTower : List (String × List Int) → String → List Int → List (String × List Int)
  | [], _, _ => []
  | (k, v) :: rest, key, val =>
    if k = key then (k, val) :: rest else (k, v) :: updateTower rest key val

/-- `TowerOfHanoiState.apply_action`: on an invalid action, return a
depth-incremented clone with copied payload and moves (documented degenerate
transition, no exception); otherwise pop the source top disk and push it on
the destination, appending the move.  New states get a fresh (empty)
evaluation history, as the dataclass default supplies. -/
def apply_action (s : TowerOfHanoiState) (action : MoveModel) : TowerOfHanoiState :=
  if !(is_valid_action s action) then
    { state_data := s.state_data
      moves_made := s.moves_made
      depth := s.depth + 1
      evaluation_history := [] }
  else
    let fromKey := pegStr action.from_tower
    let toKey := pegStr action.to_tower
    let disk := (towerOf s fromKey).getLast?.getD 0
    let t1 := updateTower s.state_data fromKey (towerOf s fromKey).dropLast
    let s1 : TowerOfHanoiState := { s with state_data := t1 }
    let t2 := updateTower t1 toKey ((towerOf s1 toKey) ++ [disk])
    { state_data := t2
      moves_made := s.moves_made ++ [action]
      depth := s.depth + 1
      evaluation_history := [] }

/-- `TowerOfHanoiState.to_structured_input`: `TowersModel(**self.state_data)`
(pydantic ignores extra keys; a missing key would raise and defaults to `[]`
in this total model). -/
def to_structured_input (s : TowerOfHanoiState) : TowersModel :=
  { A := towerOf s "A", B := towerOf s "B", C := towerOf s "C" }

/-- `GenericState.add_evaluation`: append a fresh evaluation record (the
history list is rebuilt, never aliased), with the payload repr truncated at
100 characters. -/
def add_evaluation (s : TowerOfHanoiState) (score : ℚ) (reasoning : String)
    (depth : Nat) : TowerOfHanoiState :=
  let d := reprData s.state_data
  let desc := if d.length > 100 then d.take 100 ++ "..." else d
  { s with evaluation_history :=
      s.evaluation_history ++ [⟨desc, score, reasoning, depth⟩] }

/-- `create_initial_hanoi_state`: all disks on `source`. -/
def create_initial_hanoi_state (num_disks : Nat) (source : String := "A")
    (target : String := "C") : TowerOfHanoiState :=
  { state_data := [(source, fullStack num_disks), ("B", []), (target, [])] }

/-! ### Claims C3 and C10 (Tower of Hanoi transition function) -/

/-- Membership characterization of `get_valid_actions`. -/
theorem mem_get_valid_actions (s : TowerOfHanoiState) (m : MoveModel) :
    m ∈ get_valid_actions s ↔
      ((towerOf s (pegStr m.from_tower)).isEmpty = false ∧ m.from_tower ≠ m.to_tower ∧
        ((towerOf s (pegStr m.to_tower)).isEmpty = true ∨
          ((towerOf s (pegStr m.to_tower)).isEmpty = false ∧
            (towerOf s (pegStr m.from_tower)).getLast?.getD 0 <
              (towerOf s (pegStr m.to_tower)).getLast?.getD 0))) := by
  obtain ⟨ft, tt⟩ := m
  simp only [get_valid_actions, List.mem_flatMap]
  constructor
  · rintro ⟨f, _, hmem⟩
    by_cases hfe : (towerOf s (pegStr f)).isEmpty = true
    · rw [if_pos hfe] at hmem
      exact absurd hmem (List.not_mem_nil _)
    · rw [if_neg hfe, List.mem_filterMap] at hmem
      obtain ⟨t, _, hg⟩ := hmem
      rw [Bool.not_eq_true] at hfe
      split_ifs at hg with h1 h2 h3 <;>
        simp only [reduceCtorEq, Option.some.injEq, MoveModel.mk.injEq] at hg <;>
        obtain ⟨rfl, rfl⟩ := hg
      · exact ⟨hfe, h1, Or.inl h2⟩
      · exact ⟨hfe, h1, Or.inr ⟨by simpa using h2, h3⟩⟩
  · rintro ⟨hfe, hft, hcond⟩
    refine ⟨ft, by cases ft <;> simp, ?_⟩
    rw [if_neg (by simp [hfe])]
    rw [List.mem_filterMap]
    refine ⟨tt, by cases tt <;> simp, ?_⟩
    rw [if_neg hft]
    rcases hcond with hte | ⟨hte, hlt⟩
    · rw [if_pos hte]
    · rw [if_neg (by simp [hte]), if_pos hlt]

/-- Characterization of `is_valid_action s m = true`. -/
theorem is_valid_action_eq_true (s : TowerOfHanoiState) (m : MoveModel) :
    is_valid_action s m = true ↔
      ((s.state_data.lookup (pegStr m.from_tower)).isSome ∧
        (s.state_data.lookup (pegStr m.to_tower)).isSome ∧
        (towerOf s (pegStr m.from_tower)).isEmpty = false ∧
        ((towerOf s (pegStr m.to_tower)).isEmpty = true ∨
          (towerOf s (pegStr m.from_tower)).getLast?.getD 0 <
            (towerOf s (pegStr m.to_tower)).getLast?.getD 0)) := by
  simp only [is_valid_action]
  split_ifs with h1 h2 h3
  · rw [Bool.or_eq_true] at h1
    simp only [false_iff]
    rintro ⟨ha, hb, -⟩
    rcases h1 with h | h
    · rw [Option.isNone_iff_eq_none] at h
      rw [h] at ha
      exact absurd ha (by simp)
    · rw [Option.isNone_iff_eq_none] at h
      rw [h] at hb
      exact absurd hb (by simp)
  · simp only [false_iff]
    rintro ⟨-, -, hfe, -⟩
    rw [h2] at hfe
    exact absurd hfe (by simp)
  · rw [Bool.and_eq_true] at h3
    obtain ⟨hne, hge⟩ := h3
    simp only [false_iff]
    rintro ⟨-, -, -, hcond⟩
    rcases hcond with hte | hlt
    · rw [hte] at hne
      exact absurd hne (by simp)
    · have := of_decide_eq_true hge
      omega
  · simp only [true_iff]
    rw [Bool.or_eq_true] at h1
    push_neg at h1
    refine ⟨?_, ?_, by simpa using h2, ?_⟩
    · cases hl : s.state_data.lookup (pegStr m.from_tower) with
      | none => exact absurd (by rw [hl]; rfl) h1.1
      | some v => rfl
    · cases hl : s.state_data.lookup (pegStr m.to_tower) with
      | none => exact absurd (by rw [hl]; rfl) h1.2
      | some v => rfl
    · by_cases hte : (towerOf s (pegStr m.to_tower)).isEmpty = true
      · exact Or.inl hte
      · refine Or.inr ?_
        rw [Bool.and_eq_true] at h3
        push_neg at h3
        have := h3 (by simpa using hte)
        simp only [ne_eq, decide_eq_true_eq] at this
        omega

/--
C10: over a payload containing all three pegs `A`, `B`, `C`, membership in
`get_valid_actions()` coincides exactly with `is_valid_action`, and every
returned move has distinct pegs, a non-empty source, and lands on an empty
peg or a strictly larger top disk.
-/
theorem claim_C10 (s : TowerOfHanoiState)
    (hA : (s.state_data.lookup "A").isSome)
    (hB : (s.state_data.lookup "B").isSome)
    (hC : (s.state_data.lookup "C").isSome) :
    (∀ m : MoveModel, m ∈ get_valid_actions s ↔ is_valid_action s m = true) ∧
    (∀ m ∈ get_valid_actions s,
      m.from_tower ≠ m.to_tower ∧
      towerOf s (pegStr m.from_tower) ≠ [] ∧
      (towerOf s (pegStr m.to_tower) = [] ∨
        (towerOf s (pegStr m.from_tower)).getLast?.getD 0 <
          (towerOf s (pegStr m.to_tower)).getLast?.getD 0)) := by
  have hkey : ∀ p : Peg, (s.state_data.lookup (pegStr p)).isSome := by
    intro p
    cases p
    · exact hA
    · exact hB
    · exact hC
  have main : ∀ m : MoveModel, m ∈ get_valid_actions s ↔ is_valid_action s m = true := by
    intro m
    rw [mem_get_valid_actions, is_valid_action_eq_true]
    constructor
    · rintro ⟨hfe, hft, hcond⟩
      refine ⟨hkey _, hkey _, hfe, ?_⟩
      rcases hcond with hte | ⟨_, hlt⟩
      · exact Or.inl hte
      · exact Or.inr hlt
    · rintro ⟨-, -, hfe, hcond⟩
      have hft : m.from_tower ≠ m.to_tower := by
        rintro heq
        rcases hcond with hte | hlt
        · rw [heq] at hfe
          rw [hfe] at hte
          exact absurd hte (by simp)
        · rw [heq] at hlt
          omega
      refine ⟨hfe, hft, ?_⟩
      by_cases hte : (towerOf s (pegStr m.to_tower)).isEmpty = true
      · exact Or.inl hte
      · rcases hcond with h | hlt
        · exact absurd h hte
        · exact Or.inr ⟨by simpa using hte, hlt⟩
  refine ⟨main, ?_⟩
  intro m hm
  rw [mem_get_valid_actions] at hm
  obtain ⟨hfe, hft, hcond⟩ := hm
  refine ⟨hft, by simpa [List.isEmpty_iff] using hfe, ?_⟩
  rcases hcond with hte | ⟨_, hlt⟩
  · exact Or.inl (by simpa [List.isEmpty_iff] using hte)
  · exact Or.inr hlt

/-- Witness for C10 on the 3-disk initial state. -/
theorem claim_C10_witness :
    ((⟨Peg.A, Peg.B⟩ : MoveModel) ∈ get_valid_actions (create_initial_hanoi_state 3) ↔
      is_valid_action (create_initial_hanoi_state 3) ⟨Peg.A, Peg.B⟩ = true) :=
  (claim_C10 (create_initial_hanoi_state 3) (by decide) (by decide) (by decide)).1 _

/--
C3: `apply_action` on an action failing `is_valid_action` returns a state
with unchanged payload and move list and `depth = depth + 1` (and never
raises: the function is total).
-/
theorem claim_C3 (s : TowerOfHanoiState) (a : MoveModel)
    (h : is_valid_action s a = false) :
    (apply_action s a).state_data = s.state_data ∧
    (apply_action s a).moves_made = s.moves_made ∧
    (apply_action s a).depth = s.depth + 1 := by
  simp [apply_action, h]

/-- Witness for C3: moving from the empty peg `B` of the 2-disk initial state. -/
theorem claim_C3_witness :
    is_valid_action (create_initial_hanoi_state 2) ⟨Peg.B, Peg.A⟩ = false ∧
    ((apply_action (create_initial_hanoi_state 2) ⟨Peg.B, Peg.A⟩).state_data =
        (create_initial_hanoi_state 2).state_data ∧
      (apply_action (create_initial_hanoi_state 2) ⟨Peg.B, Peg.A⟩).moves_made =
        (create_initial_hanoi_state 2).moves_made ∧
      (apply_action (create_initial_hanoi_state 2) ⟨Peg.B, Peg.A⟩).depth =
        (create_initial_hanoi_state 2).depth + 1) :=
  ⟨by decide, claim_C3 _ _ (by decide)⟩

/-! ## Stable sorting (Python `sorted` / `list.sort`)

Python's sort is stable; with `reverse=True` it is descending and equal keys
keep their original order.  We model it with a stable insertion sort
parameterized by a boolean comparison `le`, where `le a b` means `a` may be
placed before `b` (for a Python descending sort by key `k`,
`le a b = (k a ≥ k b)`). -/

/-- Insert `x` before the first element `y` of a sorted list with `le x y`. -/
def insertSorted {α : Type} (le : α → α → Bool) (x : α) : List α → List α
  | [] => [x]
  | y :: ys => if le x y then x :: y :: ys else y :: insertSorted le x ys

/-- Stable insertion sort. -/
def insSortBy {α : Type} (le : α → α → Bool) : List α → List α
  | [] => []
  | x :: xs => insertSorted le x (insSortBy le xs)

theorem insertSorted_perm {α : Type} (le : α → α → Bool) (x : α) (l : List α) :
    (insertSorted le x l).Perm (x :: l) := by
  induction l with
  | nil => rfl
  | cons y ys ih =>
    rw [insertSorted]
    split_ifs
    · rfl
    · exact (ih.cons y).trans (List.Perm.swap x y ys)

theorem insSortBy_perm {α : Type} (le : α → α → Bool) (l : List α) :
    (insSortBy le l).Perm l := by
  induction l with
  | nil => rfl
  | cons x xs ih =>
    exact (insertSorted_perm le x (insSortBy le xs)).trans (ih.cons x)

theorem mem_insertSorted {α : Type} (le : α → α → Bool) (x : α) (l : List α) (z : α) :
    z ∈ insertSorted le x l ↔ z = x ∨ z ∈ l := by
  rw [(insertSorted_perm le x l).mem_iff, List.mem_cons]

theorem insertSorted_pairwise {α : Type} (le : α → α → Bool)
    (htot : ∀ a b, le a b = true ∨ le b a = true)
    (htrans : ∀ a b c, le a b = true → le b c = true → le a c = true)
    (x : α) (l : List α) (h : l.Pairwise (fun a b => le a b = true)) :
    (insertSorted le x l).Pairwise (fun a b => le a b = true) := by
  induction l with
  | nil => simp [insertSorted]
  | cons y ys ih =>
    rw [List.pairwise_cons] at h
    rw [insertSorted]
    split_ifs with hxy
    · rw [List.pairwise_cons]
      refine ⟨?_, List.pairwise_cons.mpr h⟩
      intro z hz
      rcases List.mem_cons.mp hz with rfl | hz
      · exact hxy
      · exact htrans x y z hxy (h.1 z hz)
    · rw [List.pairwise_cons]
      refine ⟨?_, ih h.2⟩
      intro z hz
      rcases (mem_insertSorted le x ys z).mp hz with heq | hz
      · rcases htot x y with h' | h'
        · exact absurd h' hxy
        · rw [heq]
          exact h'
      · exact h.1 z hz

theorem insSortBy_pairwise {α : Type} (le : α → α → Bool)
    (htot : ∀ a b, le a b = true ∨ le b a = true)
    (htrans : ∀ a b c, le a b = true → le b c = true → le a c = true)
    (l : List α) : (insSortBy le l).Pairwise (fun a b => le a b = true) := by
  induction l with
  | nil => simp [insSortBy]
  | cons x xs ih => exact insertSorted_pairwise le htot htrans x _ ih

/-- Sorting a list in which every pair already satisfies the comparison is
the identity (Python stable sort of all-equal keys). -/
theorem insSortBy_of_all_le {α : Type} (le : α → α → Bool) (l : List α)
    (h : ∀ x ∈ l, ∀ y ∈ l, le x y = true) : insSortBy le l = l := by
  induction l with
  | nil => rfl
  | cons x xs ih =>
    rw [insSortBy, ih (fun a ha b hb => h a (List.mem_cons_of_mem x ha) b (List.mem_cons_of_mem x hb))]
    cases xs with
    | nil => rfl
    | cons y ys =>
      rw [insertSorted, if_pos (h x (List.mem_cons_self x _) y (List.mem_cons_of_mem x (List.mem_cons_self y ys)))]

/-! ## Generic sub-permutation helpers -/

theorem subperm_map {α β : Type} (f : α → β) {l₁ l₂ : List α} (h : l₁.Subperm l₂) :
    (l₁.map f).Subperm (l₂.map f) := by
  obtain ⟨l, hp, hs⟩ := h
  exact ⟨l.map f, hp.map f, hs.map f⟩

theorem subperm_nodup {α : Type} {l₁ l₂ : List α} (h : l₁.Subperm l₂) (hn : l₂.Nodup) :
    l₁.Nodup := by
  obtain ⟨l, hp, hs⟩ := h
  exact hp.nodup_iff.mp (hs.nodup hn)

theorem subperm_append_middle {α : Type} (t m b r : List α) (h : r.Subperm m) :
    (t ++ b ++ r).Subperm (t ++ m ++ b) := by
  rw [← Multiset.coe_le] at h ⊢
  have e1 : ((t ++ b ++ r : List α) : Multiset α) = ↑t + ↑b + ↑r := rfl
  have e2 : ((t ++ m ++ b : List α) : Multiset α) = ↑t + ↑m + ↑b := rfl
  have h2 : (t : Multiset α) + b + r = t + (r + b) := by abel
  have h3 : (t : Multiset α) + (m + b) = t + m + b := by abel
  rw [e1, e2, h2, ← h3]
  exact add_le_add_left (add_le_add_right h _) _

/-- A list of pairs with strictly increasing first components, all drawn from
a list that itself has strictly increasing first components, is a sublist of
it. -/
theorem sublist_of_increasing_tags {α : Type} :
    ∀ (l e : List (Nat × α)), e.Pairwise (fun a b => a.1 < b.1) →
      l.Pairwise (fun a b => a.1 < b.1) → (∀ x ∈ l, x ∈ e) → l.Sublist e := by
  intro l e
  induction e generalizing l with
  | nil =>
    intro _ _ hmem
    cases l with
    | nil => exact List.Sublist.refl _
    | cons x xs => exact absurd (hmem x (List.mem_cons_self x xs)) (List.not_mem_nil x)
  | cons y e' ih =>
    intro he hl hmem
    rw [List.pairwise_cons] at he
    cases l with
    | nil => exact List.nil_sublist _
    | cons x l' =>
      rw [List.pairwise_cons] at hl
      rcases List.mem_cons.mp (hmem x (List.mem_cons_self x l')) with rfl | hx
      · refine List.Sublist.cons₂ x (ih l' he.2 hl.2 ?_)
        intro z hz
        rcases List.mem_cons.mp (hmem z (List.mem_cons_of_mem x hz)) with rfl | h
        · exact absurd (hl.1 z hz) (lt_irrefl z.1)
        · exact h
      · refine List.Sublist.cons y (ih (x :: l') he.2 (List.pairwise_cons.mpr hl) ?_)
        intro z hz
        rcases List.mem_cons.mp hz with rfl | hz'
        · exact hx
        · rcases List.mem_cons.mp (hmem z (List.mem_cons_of_mem x hz')) with rfl | h
          · have h1 := he.1 x hx
            have h2 := hl.1 z hz'
            omega
          · exact h

/-! ## core.py: `_limit_evaluation_history` -/

/--
`_limit_evaluation_history`.  The final re-sort keys by `id(record)`; every
history is built by `add_evaluation` appending a fresh record object, so a
record's identity is its position, modelled by tagging each record with its
index (`List.enum`).  `sample` models `random.sample(middle_states, 4)`
(4 distinct positions of the input, in arbitrary order); it is a parameter so
the embedding stays deterministic.  The `max_size` argument is received
(call sites pass the solver's `max_history_size`) but — exactly as in the
source — never read: every threshold is the hard-coded constant 10 / 3 / 3 / 4.
-/
def limit_evaluation_history
    (sample : List (Nat × HistoricalEvaluationModel) → List (Nat × HistoricalEvaluationModel))
    (evaluation_history : List HistoricalEvaluationModel)
    (max_size : Nat := 50) : List HistoricalEvaluationModel :=
  if evaluation_history.length ≤ 10 then evaluation_history
  else
    let tagged := evaluation_history.enum
    let sorted_by_score := insSortBy (fun a b => decide (a.2.score ≥ b.2.score)) tagged
    let top_3 := sorted_by_score.take 3
    let bottom_3 := sorted_by_score.drop (sorted_by_score.length - 3)
    let middle_states := (sorted_by_score.drop 3).take (sorted_by_score.length - 6)
    let random_4 := if middle_states.length ≥ 4 then sample middle_states else middle_states
    let selected_states := top_3 ++ bottom_3 ++ random_4
    let in_order := insSortBy (fun a b => decide (a.1 ≤ b.1)) selected_states
    in_order.map (fun x => x.2)

/-- On a history of at most 10 records the limiter is the identity. -/
theorem limit_small
    (sample : List (Nat × HistoricalEvaluationModel) → List (Nat × HistoricalEvaluationModel))
    (h : List HistoricalEvaluationModel) (max_size : Nat) (hle : h.length ≤ 10) :
    limit_evaluation_history sample h max_size = h := by
  rw [limit_evaluation_history, if_pos hle]

/-- On a history of more than 10 records the limiter keeps at most 10 records
and returns them as a subsequence of the input (original temporal order). -/
theorem limit_big
    (sample : List (Nat × HistoricalEvaluationModel) → List (Nat × HistoricalEvaluationModel))
    (hsub : ∀ l, (sample l).Subperm l)
    (hlen : ∀ l, 4 ≤ l.length → (sample l).length = 4)
    (h : List HistoricalEvaluationModel) (max_size : Nat) (hgt : 10 < h.length) :
    (limit_evaluation_history sample h max_size).length ≤ 10 ∧
      (limit_evaluation_history sample h max_size).Sublist h := by
  rw [limit_evaluation_history, if_neg (by omega)]
  simp only
  set tagged := h.enum with htagged
  set sorted := insSortBy (fun a b => decide (a.2.score ≥ b.2.score)) tagged with hsorted
  have hperm : sorted.Perm tagged := insSortBy_perm _ _
  have hlen_sorted : sorted.length = h.length := by
    rw [hperm.length_eq, htagged, List.enum_length]
  set top_3 := sorted.take 3 with htop
  set bottom_3 := sorted.drop (sorted.length - 3) with hbot
  set middle_states := (sorted.drop 3).take (sorted.length - 6) with hmid
  set random_4 := if middle_states.length ≥ 4 then sample middle_states else middle_states
    with hr4
  have hdecomp : top_3 ++ middle_states ++ bottom_3 = sorted := by
    rw [htop, hmid, hbot]
    have h1 : (sorted.drop 3).take (sorted.length - 6) ++ (sorted.drop 3).drop (sorted.length - 6)
        = sorted.drop 3 := List.take_append_drop _ _
    have h2 : (sorted.drop 3).drop (sorted.length - 6) = sorted.drop (sorted.length - 3) := by
      rw [List.drop_drop]
      congr 1
      omega
    rw [List.append_assoc, ← h2, h1, List.take_append_drop]
  have hr4_subperm : random_4.Subperm middle_states := by
    rw [hr4]
    split_ifs
    · exact hsub middle_states
    · exact List.Sublist.subperm (List.Sublist.refl _)
  have hsel : (top_3 ++ bottom_3 ++ random_4).Subperm sorted := by
    rw [← hdecomp]
    exact subperm_append_middle _ _ _ _ hr4_subperm
  have hsel_tagged : (top_3 ++ bottom_3 ++ random_4).Subperm tagged :=
    hsel.trans hperm.subperm
  have htags_nodup : (tagged.map Prod.fst).Nodup := by
    rw [htagged, List.enum_map_fst]
    exact List.nodup_range _
  have hsel_nodup : ((top_3 ++ bottom_3 ++ random_4).map Prod.fst).Nodup :=
    subperm_nodup (subperm_map Prod.fst hsel_tagged) htags_nodup
  set in_order := insSortBy (fun a b => decide (a.1 ≤ b.1)) (top_3 ++ bottom_3 ++ random_4)
    with hord
  have hord_perm : in_order.Perm (top_3 ++ bottom_3 ++ random_4) := insSortBy_perm _ _
  constructor
  · rw [List.length_map, hord_perm.length_eq]
    have l1 : top_3.length ≤ 3 := by
      rw [htop, List.length_take]
      omega
    have l2 : bottom_3.length ≤ 3 := by
      rw [hbot, List.length_drop]
      omega
    have l3 : random_4.length ≤ 4 := by
      rw [hr4]
      split_ifs with hcase
      · rw [hlen middle_states hcase]
      · omega
    simp only [List.length_append]
    omega
  · have hord_pairwise_le : in_order.Pairwise (fun a b => a.1 ≤ b.1) := by
      have := insSortBy_pairwise (fun a b : Nat × HistoricalEvaluationModel => decide (a.1 ≤ b.1))
        (fun a b => by rcases le_total a.1 b.1 with h' | h' <;> simp [h'])
        (fun a b c hab hbc => by
          simp only [decide_eq_true_eq] at hab hbc ⊢
          omega)
        (top_3 ++ bottom_3 ++ random_4)
      refine this.imp ?_
      intro a b hab
      simpa using hab
    have hord_tags_nodup : (in_order.map Prod.fst).Nodup := by
      rw [(hord_perm.map Prod.fst).nodup_iff]
      exact hsel_nodup
    have hord_pairwise_ne : in_order.Pairwise (fun a b => a.1 ≠ b.1) :=
      List.pairwise_map.mp hord_tags_nodup
    have hord_pairwise_lt : in_order.Pairwise (fun a b => a.1 < b.1) :=
      (hord_pairwise_le.and hord_pairwise_ne).imp
        (fun hab => lt_of_le_of_ne hab.1 hab.2)
    have htagged_pairwise_lt : tagged.Pairwise (fun a b => a.1 < b.1) := by
      apply List.pairwise_map.mp
      rw [htagged, List.enum_map_fst]
      exact List.pairwise_lt_range _
    have hsubl : in_order.Sublist tagged := by
      refine sublist_of_increasing_tags in_order tagged htagged_pairwise_lt hord_pairwise_lt ?_
      intro x hx
      exact hsel_tagged.subset (hord_perm.subset hx)
    have : (in_order.map (fun x => x.2)).Sublist (tagged.map Prod.snd) := hsubl.map _
    rwa [htagged, List.enum_map_snd] at this

/--
C5: the history limiter returns histories of at most 10 records unchanged;
on longer histories it returns at most 10 records (3 top-scoring, 3
bottom-scoring and a sample of 4 of the rest) re-sorted by original
position, i.e. a subsequence of the input in temporal order.  `sample`
satisfies the `random.sample(middle, 4)` contract.
-/
theorem claim_C5
    (sample : List (Nat × HistoricalEvaluationModel) → List (Nat × HistoricalEvaluationModel))
    (hsub : ∀ l, (sample l).Subperm l)
    (hlen : ∀ l, 4 ≤ l.length → (sample l).length = 4)
    (h : List HistoricalEvaluationModel) (max_size : Nat) :
    (h.length ≤ 10 → limit_evaluation_history sample h max_size = h) ∧
    (10 < h.length →
      (limit_evaluation_history sample h max_size).length ≤ 10 ∧
        (limit_evaluation_history sample h max_size).Sublist h) :=
  ⟨fun hle => limit_small sample h max_size hle,
   fun hgt => limit_big sample hsub hlen h max_size hgt⟩

/-- A deterministic instantiation of the sampling oracle (used in witnesses):
take the first 4 elements.  It satisfies the `random.sample` contract. -/
def takeSample (l : List (Nat × HistoricalEvaluationModel)) :
    List (Nat × HistoricalEvaluationModel) := l.take 4

theorem takeSample_subperm : ∀ l, (takeSample l).Subperm l :=
  fun l => (List.take_sublist 4 l).subperm

theorem takeSample_length : ∀ l, 4 ≤ l.length → (takeSample l).length = 4 := by
  intro l h
  rw [takeSample, List.length_take]
  omega

/-- A history record with a given score (witness data). -/
def histRecord (q : ℚ) : HistoricalEvaluationModel := ⟨"", q, "", 0⟩

/-- A 3-record history (below the limiter threshold). -/
def hist3 : List HistoricalEvaluationModel := [histRecord 1, histRecord 2, histRecord 3]

/-- A 12-record history (above the limiter threshold). -/
def hist12 : List HistoricalEvaluationModel :=
  [histRecord 1, histRecord 5, histRecord 3, histRecord 8, histRecord 2, histRecord 9,
   histRecord 4, histRecord 7, histRecord 6, histRecord 10, histRecord 11, histRecord 12]

/-- Witness for C5 at concrete histories of lengths 3 and 12. -/
theorem claim_C5_witness :
    (limit_evaluation_history takeSample hist3 50 = hist3) ∧
    ((limit_evaluation_history takeSample hist12 50).length ≤ 10 ∧
      (limit_evaluation_history takeSample hist12 50).Sublist hist12) :=
  ⟨(claim_C5 takeSample takeSample_subperm takeSample_length hist3 50).1 (by decide),
   (claim_C5 takeSample takeSample_subperm takeSample_length hist12 50).2 (by decide)⟩

/-! ## core.py: sequential and batch evaluators -/

/-- The `evaluation` attribute of a sequential evaluator result; `getattr`
defaults (`0`, `"N/A"`, `"N/A"`) apply to absent fields, modelled as `none`. -/
structure EvaluationFields where
  score : Option ℚ
  reasoning : Option String
  best_action : Option String

/-- The sequential Evaluator oracle: receives the structured current state,
the valid actions, the move history and the *limited* evaluation history.
(The `goal_state` kwarg is always `None` for these states — they have no
`goal_state` attribute — and the constant `game_description` string does not
influence this model.)  A result of `none` models a result object without an
`evaluation` attribute.  The oracle is an arbitrary function: theorems
quantify over every behaviour. -/
abbrev Evaluator := TowersModel → List MoveModel → List MoveModel →
  List HistoricalEvaluationModel → Option EvaluationFields

/-- One entry of the solver-level `evaluation_history` list:
`(str(state.state_data), score, eval_details)` with the details dict fields.
`batch_best` is only present in batch-produced entries (`none` otherwise). -/
structure EvalHistEntry where
  state_desc : String
  score : ℚ
  reasoning : String
  best_action : String
  batch_best : Option Bool
deriving DecidableEq

/-- `_evaluate_states_sequential`: for each state, limit its history, call the
evaluator, extract score/reasoning with duck-typed defaults, append an entry
to the solver history and the evaluation to the state's own history, then
return all states sorted by score descending (Python's stable sort). -/
def evaluate_states_sequential
    (sample : List (Nat × HistoricalEvaluationModel) → List (Nat × HistoricalEvaluationModel))
    (max_history_size : Nat) (evaluator : Evaluator)
    (states : List TowerOfHanoiState) (evaluation_history : List EvalHistEntry) :
    List TowerOfHanoiState × List EvalHistEntry :=
  let step := states.map (fun state =>
    let limited_history :=
      limit_evaluation_history sample state.evaluation_history max_history_size
    let result := evaluator (to_structured_input state) (get_valid_actions state)
      state.moves_made limited_history
    let score := match result with
      | some ev => ev.score.getD 0
      | none => 0
    let reasoning := match result with
      | some ev => ev.reasoning.getD "N/A"
      | none => "N/A"
    let best := match result with
      | some ev => ev.best_action.getD "N/A"
      | none => "N/A"
    let entry : EvalHistEntry := ⟨reprData state.state_data, score, reasoning, best, none⟩
    (score, add_evaluation state score reasoning state.depth, entry))
  let scored_states := step.map (fun t => (t.1, t.2.1))
  let entries := step.map (fun t => t.2.2)
  let sorted := insSortBy (fun a b => decide (a.1 ≥ b.1)) scored_states
  (sorted.map (fun x => x.2), evaluation_history ++ entries)

/-- The body of the batch evaluator's scoring loop
(`for i, (state, score) in enumerate(zip(states, scores))`): build the
solver-history entry and attach the evaluation to the state. -/
def batchStep (best_index : Nat) (individual_reasoning : List String) (reasoning : String)
    (p : Nat × (TowerOfHanoiState × ℚ)) : ℚ × TowerOfHanoiState × EvalHistEntry :=
  let individual_reason := (individual_reasoning[p.1]?).getD reasoning
  let entry : EvalHistEntry := ⟨reprData p.2.1.state_data, p.2.2,
    "Batch eval (#" ++ toString p.1 ++ "): " ++ individual_reason, "N/A",
    some (p.1 == best_index)⟩
  (p.2.2, add_evaluation p.2.1 p.2.2 individual_reason p.2.1.depth, entry)

/-- The duck-typed batch evaluator result: the outer `Option` models a result
without a `batch_evaluation` attribute, `state_scores = none` models a
`batch_evaluation` without a `state_scores` attribute, and the remaining
`Option` fields model `getattr` defaults. -/
structure BatchEvaluationFields where
  state_scores : Option (List ℚ)
  reasoning : Option String
  individual_reasoning : Option (List String)
  best_state_index : Option Nat

/-- The batch Evaluator oracle: structured states, per-state move histories
and per-state *limited* evaluation histories, in input order.  `Except.error`
models the call raising. -/
abbrev BatchEvaluator := List TowersModel → List (List MoveModel) →
  List (List HistoricalEvaluationModel) → Except Unit (Option BatchEvaluationFields)

/-- `_evaluate_states_batch`: one oracle call for all states.  If the call
raises, fall back to `_evaluate_states_sequential` on the same arguments.  If
the result lacks `batch_evaluation.state_scores`, substitute the neutral
fallback scores `0.5` and fallback reasoning (no sequential fallback).
Otherwise score each state in input order, then return all states sorted by
score descending. -/
def evaluate_states_batch
    (sample : List (Nat × HistoricalEvaluationModel) → List (Nat × HistoricalEvaluationModel))
    (max_history_size : Nat) (batch_evaluator : BatchEvaluator) (evaluator : Evaluator)
    (states : List TowerOfHanoiState) (evaluation_history : List EvalHistEntry) :
    List TowerOfHanoiState × List EvalHistEntry :=
  let structured_states := states.map to_structured_input
  let action_histories := states.map (fun s => s.moves_made)
  let evaluation_histories := states.map (fun s =>
    limit_evaluation_history sample s.evaluation_history max_history_size)
  match batch_evaluator structured_states action_histories evaluation_histories with
  | .error _ =>
    evaluate_states_sequential sample max_history_size evaluator states evaluation_history
  | .ok result =>
    let extracted : List ℚ × String × List String × Nat :=
      match result with
      | some be =>
        match be.state_scores with
        | some scores =>
          (scores, be.reasoning.getD "Batch evaluation",
            be.individual_reasoning.getD [], be.best_state_index.getD 0)
        | none =>
          (List.replicate states.length (mkRat 1 2), "Fallback evaluation",
            List.replicate states.length "Fallback reasoning", 0)
      | none =>
        (List.replicate states.length (mkRat 1 2), "Fallback evaluation",
          List.replicate states.length "Fallback reasoning", 0)
    let scores := extracted.1
    let reasoning := extracted.2.1
    let individual_reasoning := extracted.2.2.1
    let best_index := extracted.2.2.2
    let step := ((states.zip scores).enum).map
      (batchStep best_index individual_reasoning reasoning)
    let scored_states := step.map (fun t => (t.1, t.2.1))
    let entries := step.map (fun t => t.2.2)
    let sorted := insSortBy (fun a b => decide (a.1 ≥ b.1)) scored_states
    (sorted.map (fun x => x.2), evaluation_history ++ entries)


theorem zip_replicate_self {α β : Type} (l : List α) (q : β) :
    l.zip (List.replicate l.length q) = l.map (fun s => (s, q)) := by
  induction l with
  | nil => rfl
  | cons x xs ih => simp only [List.length_cons, List.replicate_succ, List.zip_cons_cons,
      List.map_cons, ih]

theorem enum_map_comp_snd {α β : Type} (l : List α) (k : α → β) :
    (l.enum).map (fun p => k p.2) = l.map k := by
  have h : (fun p : Nat × α => k p.2) = k ∘ Prod.snd := rfl
  rw [h, ← List.map_map, List.enum_map_snd]

/--
C1 (amended): if the batch evaluator call raises, `_evaluate_states_batch`
falls back to `_evaluate_states_sequential` on the same states and history,
with identical result; if the call returns a result lacking
`batch_evaluation.state_scores`, the batch path does NOT invoke the
sequential evaluator — every state gets the neutral fallback score `0.5` and
fallback reasoning, in input order.  Neither case is a fatal error.
-/
theorem claim_C1_amended
    (sample : List (Nat × HistoricalEvaluationModel) → List (Nat × HistoricalEvaluationModel))
    (mh : Nat) (batch_evaluator : BatchEvaluator) (evaluator : Evaluator)
    (states : List TowerOfHanoiState) (hist : List EvalHistEntry) :
    ((∀ a b c, batch_evaluator a b c = Except.error ()) →
      evaluate_states_batch sample mh batch_evaluator evaluator states hist =
        evaluate_states_sequential sample mh evaluator states hist) ∧
    ((∀ a b c, batch_evaluator a b c = Except.ok none ∨
        ∃ be, batch_evaluator a b c = Except.ok (some be) ∧ be.state_scores = none) →
      (evaluate_states_batch sample mh batch_evaluator evaluator states hist).1 =
        states.map (fun s => add_evaluation s (mkRat 1 2) "Fallback reasoning" s.depth)) := by
  have main : ∀ (reasoning : String) (bi : Nat),
      ((insSortBy (fun a b : ℚ × TowerOfHanoiState => decide (a.1 ≥ b.1))
        ((((states.zip (List.replicate states.length (mkRat 1 2))).enum).map
          (batchStep bi (List.replicate states.length "Fallback reasoning") reasoning)).map
            (fun t => (t.1, t.2.1)))).map (fun x => x.2))
      = states.map (fun s => add_evaluation s (mkRat 1 2) "Fallback reasoning" s.depth) := by
    intro reasoning bi
    rw [zip_replicate_self, List.map_map]
    have hscored : ((states.map (fun s => (s, mkRat 1 2))).enum).map
        ((fun t : ℚ × TowerOfHanoiState × EvalHistEntry => (t.1, t.2.1)) ∘
          batchStep bi (List.replicate states.length "Fallback reasoning") reasoning) =
        ((states.map (fun s => (s, mkRat 1 2))).enum).map
          (fun p => ((mkRat 1 2),
            add_evaluation p.2.1 (mkRat 1 2) "Fallback reasoning" p.2.1.depth)) := by
      apply List.map_eq_map_iff.mpr
      intro p hp
      have hget := List.mem_enum_iff_getElem?.mp hp
      have hlt : p.1 < (states.map (fun s => (s, mkRat 1 2))).length :=
        (List.getElem?_eq_some.mp hget).1
      rw [List.length_map] at hlt
      have hmem : p.2 ∈ states.map (fun s => (s, mkRat 1 2)) := List.getElem?_mem hget
      obtain ⟨s, -, hs⟩ := List.mem_map.mp hmem
      have hsnd : p.2.2 = mkRat 1 2 := by rw [← hs]
      have hrep : ((List.replicate states.length "Fallback reasoning")[p.1]?).getD reasoning
          = "Fallback reasoning" := by
        rw [List.getElem?_replicate, if_pos hlt]
        rfl
      simp only [Function.comp_apply, batchStep, hrep, hsnd]
    rw [hscored]
    have hall : insSortBy (fun a b : ℚ × TowerOfHanoiState => decide (a.1 ≥ b.1))
        (((states.map (fun s => (s, mkRat 1 2))).enum).map
          (fun p => ((mkRat 1 2),
            add_evaluation p.2.1 (mkRat 1 2) "Fallback reasoning" p.2.1.depth))) =
        ((states.map (fun s => (s, mkRat 1 2))).enum).map
          (fun p => ((mkRat 1 2),
            add_evaluation p.2.1 (mkRat 1 2) "Fallback reasoning" p.2.1.depth)) := by
      apply insSortBy_of_all_le
      intro x hx y hy
      obtain ⟨px, -, hpx⟩ := List.mem_map.mp hx
      obtain ⟨py, -, hpy⟩ := List.mem_map.mp hy
      rw [← hpx, ← hpy]
      simp
    rw [hall, List.map_map]
    have hfin : ((fun x : ℚ × TowerOfHanoiState => x.2) ∘
        (fun p : Nat × (TowerOfHanoiState × ℚ) => ((mkRat 1 2),
          add_evaluation p.2.1 (mkRat 1 2) "Fallback reasoning" p.2.1.depth))) =
        (fun p : Nat × (TowerOfHanoiState × ℚ) =>
          add_evaluation p.2.1 (mkRat 1 2) "Fallback reasoning" p.2.1.depth) := rfl
    rw [hfin]
    exact (enum_map_comp_snd (states.map (fun s => (s, mkRat 1 2)))
      (fun x => add_evaluation x.1 (mkRat 1 2) "Fallback reasoning" x.1.depth)).trans
      (by rw [List.map_map]; rfl)
  constructor
  · intro hraise
    simp only [evaluate_states_batch, hraise]
  · intro hmal
    rcases hmal (states.map to_structured_input) (states.map (fun s => s.moves_made))
        (states.map (fun s => limit_evaluation_history sample s.evaluation_history mh))
      with hm | ⟨be, hm, hscores⟩
    · simp only [evaluate_states_batch, hm]
      exact main "Fallback evaluation" 0
    · simp only [evaluate_states_batch, hm, hscores]
      exact main "Fallback evaluation" 0

/-- A concrete sequential evaluator used by counterexamples/witnesses. -/
def probeEvaluator : Evaluator := fun _ _ _ _ => some ⟨some 1, some "good", some "best"⟩

/-- A batch evaluator that raises on every call. -/
def raisingBatchEvaluator : BatchEvaluator := fun _ _ _ => .error ()

/-- A batch evaluator whose result lacks the `batch_evaluation` attribute. -/
def malformedBatchEvaluator : BatchEvaluator := fun _ _ _ => .ok none

/-- Counterexample for C1 as stated: on a malformed (shape-wise) batch result
the batch path does not produce the sequential evaluator's result — it
substitutes the constant `0.5` fallback score where the sequential evaluator
scores the same state `1`, so the two paths' outputs differ. -/
theorem claim_C1_counterexample :
    ((evaluate_states_batch takeSample 10 malformedBatchEvaluator probeEvaluator
        [create_initial_hanoi_state 1] []).2.map (fun e => e.score) = [mkRat 1 2]) ∧
    ((evaluate_states_sequential takeSample 10 probeEvaluator
        [create_initial_hanoi_state 1] []).2.map (fun e => e.score) = [(1 : ℚ)]) ∧
    ¬ (mkRat 1 2 = 1) :=
  ⟨rfl, rfl, by decide⟩

/-- Witness for C1 (amended) at a concrete raising and a concrete malformed
batch evaluator. -/
theorem claim_C1_witness :
    (evaluate_states_batch takeSample 10 raisingBatchEvaluator probeEvaluator
        [create_initial_hanoi_state 1] [] =
      evaluate_states_sequential takeSample 10 probeEvaluator
        [create_initial_hanoi_state 1] []) ∧
    ((evaluate_states_batch takeSample 10 malformedBatchEvaluator probeEvaluator
        [create_initial_hanoi_state 1] []).1 =
      [create_initial_hanoi_state 1].map
        (fun s => add_evaluation s (mkRat 1 2) "Fallback reasoning" s.depth)) :=
  ⟨(claim_C1_amended takeSample 10 raisingBatchEvaluator probeEvaluator
      [create_initial_hanoi_state 1] []).1 (fun _ _ _ => rfl),
   (claim_C1_amended takeSample 10 malformedBatchEvaluator probeEvaluator
      [create_initial_hanoi_state 1] []).2 (fun _ _ _ => Or.inl rfl)⟩

/-- An evaluator that reports the length of the limited evaluation history it
was handed, making the history cap observable from outside. -/
def lenProbeEvaluator : Evaluator := fun _ _ _ lh => some ⟨some (lh.length : ℚ), none, none⟩

/-- A state carrying a 12-record evaluation history. -/
def stateWithHistory12 : TowerOfHanoiState :=
  { state_data := [("A", [1]), ("B", []), ("C", [])], evaluation_history := hist12 }

/-- Counterexample for C6 as stated: with `max_history_size = 3`, the
evaluator path hands the oracle a 10-record limited history — the enforced
cap is the constant 10, not the configured `maxHistorySize`. -/
theorem claim_C6_counterexample :
    ((evaluate_states_sequential takeSample 3 lenProbeEvaluator [stateWithHistory12] []).2.map
        (fun e => e.score) = [10]) ∧ ¬ ((10 : ℚ) ≤ 3) := by
  decide

/-- C6 (amended): `_limit_evaluation_history` ignores its `max_size` argument
entirely — its output is the same for every configured `maxHistorySize` — and
the cap it does enforce is the constant 10. -/
theorem claim_C6_amended :
    (∀ sample h m₁ m₂, limit_evaluation_history sample h m₁ =
      limit_evaluation_history sample h m₂) ∧
    (∀ sample, (∀ l, (sample l).Subperm l) → (∀ l, 4 ≤ l.length → (sample l).length = 4) →
      ∀ (h : List HistoricalEvaluationModel) (m : Nat),
        (limit_evaluation_history sample h m).length ≤ 10) := by
  constructor
  · intro sample h m₁ m₂
    rfl
  · intro sample hsub hlen h m
    by_cases hle : h.length ≤ 10
    · rw [limit_small sample h m hle]
      exact hle
    · exact (limit_big sample hsub hlen h m (by omega)).1

/-- Witness for C6 (amended) at concrete configured sizes 3 and 50. -/
theorem claim_C6_witness :
    (limit_evaluation_history takeSample hist12 3 =
      limit_evaluation_history takeSample hist12 50) ∧
    (limit_evaluation_history takeSample hist12 3).length ≤ 10 :=
  ⟨claim_C6_amended.1 takeSample hist12 3 50,
   claim_C6_amended.2 takeSample takeSample_subperm takeSample_length hist12 3⟩

/-! ## core.py: ranker output coercion (`to_model`) -/

/-- A dynamically-typed "action" value decoded from the ranking oracle's
output: a number, a string, a mapping (whose values, in the cases the
recovery code can process, are strings), a well-typed action object
(anything with `from_tower` and `to_tower` attributes), or anything else. -/
inductive RankedValue where
  | num (x : ℚ)
  | str (s : String)
  | dict (entries : List (String × String))
  | act (m : MoveModel)
  | other
deriving DecidableEq

/-- Parse a peg literal: pydantic accepts exactly `"A"`, `"B"`, `"C"` for the
`Literal` fields of `MoveModel`. -/
def pegOfString (s : String) : Option Peg :=
  if s = "A" then some Peg.A
  else if s = "B" then some Peg.B
  else if s = "C" then some Peg.C
  else none

/-- `model_cls(**action_data)` for `MoveModel`: construction succeeds iff
both `from_tower` and `to_tower` are present with values among the `Literal`
alternatives (pydantic ignores extra keys); otherwise it raises a validation
error, caught by the recovery branch. -/
def constructMove (entries : List (String × String)) : Option MoveModel :=
  match pegOfString ((entries.lookup "from_tower").getD ""),
      pegOfString ((entries.lookup "to_tower").getD "") with
  | some f, some t => some ⟨f, t⟩
  | _, _ => none

/-- The recovery loop: scan `valid_actions` for the first whose every model
field (`from_tower`, `to_tower`) equals `action_data.get(field)` — a missing
key (`None`) never equals a peg string. -/
def fieldMatchSearch (valid_actions : List MoveModel) (entries : List (String × String)) :
    Option MoveModel :=
  valid_actions.find? (fun v =>
    (entries.lookup "from_tower" == some (pegStr v.from_tower)) &&
    (entries.lookup "to_tower" == some (pegStr v.to_tower)))

/-- The defensive coercion `to_model`, shared verbatim by
`_rank_actions_batch` and `_rank_actions_sequential`: numbers and strings are
replaced by the first valid action (`None` when there is none); a dict is
constructed directly, else field-matched against the valid actions, else
replaced by the first valid action; an object with `from_tower`/`to_tower`
attributes passes through unchanged; anything else falls back to the first
valid action.  `Except.error` marks the two paths that raise in Python: a
dict binding the key `"action"` (its payload here is not a mapping, so
`model_cls(**...)` raises `TypeError` and the recovery loop's
`action_data.get` then raises an uncaught `AttributeError`), and
`valid_actions[0]` on an empty list (`IndexError`); the engine only reaches
`to_model` when the valid-action list is non-empty. -/
def to_model (valid_actions : List MoveModel) : RankedValue → Except Unit (Option MoveModel)
  | .num _ => .ok valid_actions.head?
  | .str _ => .ok valid_actions.head?
  | .dict entries =>
    match entries.lookup "action" with
    | some _ => .error ()
    | none =>
      match constructMove entries with
      | some m => .ok (some m)
      | none =>
        match fieldMatchSearch valid_actions entries with
        | some m => .ok (some m)
        | none =>
          match valid_actions.head? with
          | some m => .ok (some m)
          | none => .error ()
  | .act m => .ok (some m)
  | .other => .ok valid_actions.head?

/-- Counterexample for C2 as stated: on the initial 2-disk state the ranker
output `{"from_tower": "A", "to_tower": "A"}` constructs successfully and is
propagated, yet `A → A` is not in the state's valid-action set. -/
theorem claim_C2_counterexample :
    to_model (get_valid_actions (create_initial_hanoi_state 2))
        (RankedValue.dict [("from_tower", "A"), ("to_tower", "A")]) =
      Except.ok (some ⟨Peg.A, Peg.A⟩) ∧
    (⟨Peg.A, Peg.A⟩ : MoveModel) ∉ get_valid_actions (create_initial_hanoi_state 2) :=
  ⟨rfl, by decide⟩

/--
C2 (amended): for a non-empty valid-action list, every action `to_model`
propagates is an element of the valid-action set — numeric, string and
unrecognized values, and dicts whose construction fails, are always replaced
by a member of the set — EXCEPT on the two pass-through paths: a dict that
constructs successfully is returned as constructed, and a well-typed action
object is passed through unchanged, in both cases even when the action is not
in the valid-action set.
-/
theorem claim_C2_amended (valid_actions : List MoveModel) (v : RankedValue) (m : MoveModel)
    (hne : valid_actions ≠ [])
    (hres : to_model valid_actions v = Except.ok (some m)) :
    m ∈ valid_actions ∨
      (∃ entries, v = RankedValue.dict entries ∧ constructMove entries = some m) ∨
      v = RankedValue.act m := by
  have hhead : ∀ m', valid_actions.head? = some m' → m' ∈ valid_actions := by
    intro m' hm'
    cases valid_actions with
    | nil => exact absurd hm' (by simp)
    | cons a l =>
      rw [List.head?_cons, Option.some.injEq] at hm'
      rw [← hm']
      exact List.mem_cons_self a l
  cases v with
  | num x =>
    simp only [to_model, Except.ok.injEq] at hres
    exact Or.inl (hhead m hres)
  | str s =>
    simp only [to_model, Except.ok.injEq] at hres
    exact Or.inl (hhead m hres)
  | act m' =>
    simp only [to_model, Except.ok.injEq, Option.some.injEq] at hres
    exact Or.inr (Or.inr (by rw [hres]))
  | other =>
    simp only [to_model, Except.ok.injEq] at hres
    exact Or.inl (hhead m hres)
  | dict entries =>
    simp only [to_model] at hres
    cases hact : entries.lookup "action" with
    | some _ => rw [hact] at hres; exact absurd hres (by simp)
    | none =>
      rw [hact] at hres
      cases hcon : constructMove entries with
      | some c =>
        rw [hcon] at hres
        simp only [Except.ok.injEq, Option.some.injEq] at hres
        exact Or.inr (Or.inl ⟨entries, rfl, by rw [hcon, hres]⟩)
      | none =>
        rw [hcon] at hres
        cases hfind : fieldMatchSearch valid_actions entries with
        | some f =>
          rw [hfind] at hres
          simp only [Except.ok.injEq, Option.some.injEq] at hres
          rw [← hres]
          exact Or.inl (List.mem_of_find?_eq_some hfind)
        | none =>
          rw [hfind] at hres
          cases hhd : valid_actions.head? with
          | some a =>
            rw [hhd] at hres
            simp only [Except.ok.injEq, Option.some.injEq] at hres
            rw [← hres]
            exact Or.inl (hhead a hhd)
          | none =>
            rw [hhd] at hres
            exact absurd hres (by simp)

/-- Witness for C2 (amended): a string ranker output on the initial 2-disk
state is replaced by a member of the valid-action set. -/
theorem claim_C2_witness :
    (⟨Peg.A, Peg.B⟩ : MoveModel) ∈ get_valid_actions (create_initial_hanoi_state 2) ∨
      (∃ entries, RankedValue.str "go" = RankedValue.dict entries ∧
        constructMove entries = some ⟨Peg.A, Peg.B⟩) ∨
      RankedValue.str "go" = RankedValue.act ⟨Peg.A, Peg.B⟩ :=
  claim_C2_amended (get_valid_actions (create_initial_hanoi_state 2))
    (RankedValue.str "go") ⟨Peg.A, Peg.B⟩ (by decide) rfl

/-! ## core.py: the beam-search `solve` loop

The loop is embedded over the Tower of Hanoi state type.  The two oracle
dispatches are parameters: `RankFn` models the choice at lines 595-602
(`_rank_actions_batch` or `_rank_actions_sequential` applied to the
state/action pairs) and `EvalFn` the choice at lines 731-740
(`_evaluate_states_batch` or `_evaluate_states_sequential` applied to the
generated states and the running history); the solve-level theorems hold for
every function of these types, hence for both concrete dispatches.  Prints,
timers and the `states_explored` / `beam_replenishments` counters do not
affect the returned value and are omitted. -/

/-- The engine configuration (`__init__`): `backup_pool_size` defaults to
`beam_width * 5` at construction. -/
structure SolverConfig where
  max_depth : Nat := 50
  beam_width : Nat := 3
  backup_pool_size : Nat

/-- The ranking dispatch: `(state, validActions)` pairs to
`(state, rankedActions)` pairs. -/
abbrev RankFn := List (TowerOfHanoiState × List MoveModel) →
  List (TowerOfHanoiState × List MoveModel)

/-- The evaluation dispatch: generated states and running history to
evaluated states (score-descending) and extended history. -/
abbrev EvalFn := List TowerOfHanoiState → List EvalHistEntry →
  List TowerOfHanoiState × List EvalHistEntry

/-- `str(state.state_data)`: the dedup key of a state. -/
def stateKey (s : TowerOfHanoiState) : String := reprData s.state_data

/-- The guarded frontier insertion
(`if str(new_state.state_data) not in visited: visited.add(...); next_states.append(...)`). -/
def dedupAdd (acc : List String × List TowerOfHanoiState) (s : TowerOfHanoiState) :
    List String × List TowerOfHanoiState :=
  if stateKey s ∈ acc.1 then acc
  else (acc.1 ++ [stateKey s], acc.2 ++ [s])

/-- `new_state.evaluation_history = list(state.evaluation_history)`. -/
def withHist (h : List HistoricalEvaluationModel) (s : TowerOfHanoiState) :
    TowerOfHanoiState :=
  { s with evaluation_history := h }

/-- `state.evaluation_history and state.evaluation_history[-1].score > 0.65`
(the threshold `0.65` is written `mkRat 13 20` to keep the model
kernel-computable). -/
def isHighScoring (s : TowerOfHanoiState) : Bool :=
  match s.evaluation_history.getLast? with
  | some r => decide (r.score > mkRat 13 20)
  | none => false

/-- The field-wise re-validation of a ranked action against the original
valid-action list (lines 636-642). -/
def actionInValidSet (valid_actions : List MoveModel) (a : MoveModel) : Bool :=
  valid_actions.any (fun v =>
    decide (v.from_tower = a.from_tower ∧ v.to_tower = a.to_tower))

/-- Standard single-move exploration (lines 625-653): top `beam_width` ranked
actions, re-validated by `is_valid_action` and against the original
valid-action list; survivors are applied, given the parent's evaluation
history, and inserted under the visited-set guard. -/
def singleMoves (beam_width : Nat) (state : TowerOfHanoiState) (ranked : List MoveModel)
    (acc : List String × List TowerOfHanoiState) : List String × List TowerOfHanoiState :=
  (ranked.take beam_width).foldl (fun acc action =>
    if !(is_valid_action state action) then acc
    else if !(actionInValidSet (get_valid_actions state) action) then acc
    else dedupAdd acc (withHist state.evaluation_history (apply_action state action))) acc

/-- 2-move sequence synthesis (lines 659-684): top 3 ranked first moves (the
valid ones), then the first 2 valid actions of the intermediate state. -/
def twoMoveSeqs (state : TowerOfHanoiState) (ranked : List MoveModel)
    (acc : List String × List TowerOfHanoiState) : List String × List TowerOfHanoiState :=
  (ranked.take (min 3 ranked.length)).foldl (fun acc first_action =>
    if !(is_valid_action state first_action) then acc
    else
      let intermediate_state := apply_action state first_action
      ((get_valid_actions intermediate_state).take 2).foldl (fun acc second_action =>
        dedupAdd acc (withHist state.evaluation_history
          (apply_action intermediate_state second_action))) acc) acc

/-- 3-move sequence synthesis (lines 686-718): top 2 ranked first moves (the
valid ones), first 2 valid second moves, first 1 valid third move. -/
def threeMoveSeqs (state : TowerOfHanoiState) (ranked : List MoveModel)
    (acc : List String × List TowerOfHanoiState) : List String × List TowerOfHanoiState :=
  (ranked.take (min 2 ranked.length)).foldl (fun acc first_action =>
    if !(is_valid_action state first_action) then acc
    else
      let intermediate_state := apply_action state first_action
      ((get_valid_actions intermediate_state).take 2).foldl (fun acc second_action =>
        let second_state := apply_action intermediate_state second_action
        ((get_valid_actions second_state).take 1).foldl (fun acc third_action =>
          dedupAdd acc (withHist state.evaluation_history
            (apply_action second_state third_action))) acc) acc) acc

/-- Per-(state, rankedActions) expansion (lines 605-723): single moves, then
— only for a state whose most recent evaluation score exceeds 0.65 — the
2-move and 3-move sequence synthesis. -/
def processRanked (beam_width : Nat) (p : TowerOfHanoiState × List MoveModel)
    (acc : List String × List TowerOfHanoiState) : List String × List TowerOfHanoiState :=
  let acc1 := singleMoves beam_width p.1 p.2 acc
  if isHighScoring p.1 then threeMoveSeqs p.1 p.2 (twoMoveSeqs p.1 p.2 acc1)
  else acc1

/-- One round's expansion over all ranked beam states, threading the visited
set and starting from an empty next-states list. -/
def expandRound (beam_width : Nat) (rankings : List (TowerOfHanoiState × List MoveModel))
    (visited : List String) : List String × List TowerOfHanoiState :=
  rankings.foldl (fun acc p => processRanked beam_width p acc) (visited, [])

/-- The backup-pool score lookup (lines 748-758): scan the last
`len(all_evaluated_states)` history entries for the first whose description
equals the state's serialized payload; default `0.5`. -/
def lookupBackupScore (evaluation_history : List EvalHistEntry) (n : Nat)
    (s : TowerOfHanoiState) : ℚ :=
  let recent_evals := evaluation_history.drop (evaluation_history.length - n)
  ((recent_evals.find? (fun e => e.state_desc == stateKey s)).map
    (fun e => e.score)).getD (mkRat 1 2)

/-- Beam replenishment (lines 523-541): when the beam is empty and the backup
pool is not, sort the pool by score descending and pop the top `beam_width`
entries into the beam. -/
def replenish (cfg : SolverConfig) (beam : List TowerOfHanoiState)
    (backup_states : List (ℚ × TowerOfHanoiState)) :
    List TowerOfHanoiState × List (ℚ × TowerOfHanoiState) :=
  if beam.isEmpty && !backup_states.isEmpty then
    let sorted := insSortBy (fun a b : ℚ × TowerOfHanoiState => decide (a.1 ≥ b.1))
      backup_states
    ((sorted.take cfg.beam_width).map (fun x => x.2), sorted.drop cfg.beam_width)
  else (beam, backup_states)

/-- The rounds `for depth in range(self.max_depth)` of `solve`, `fuel` being
the number of remaining rounds: replenish an empty beam from the backup pool,
fail when the beam is still empty, return the first goal state's moves,
otherwise rank, expand (with visited-set dedup), evaluate, select the top
`beam_width` as the new beam, push the rest into the (trimmed) backup pool. -/
def solveLoop (cfg : SolverConfig) (rankFn : RankFn) (evalFn : EvalFn) :
    Nat → List TowerOfHanoiState → List (ℚ × TowerOfHanoiState) → List String →
    List EvalHistEntry → List MoveModel × Bool
  | 0, _, _, _, _ => ([], false)
  | fuel + 1, beam, backup_states, visited, evaluation_history =>
    let rep := replenish cfg beam backup_states
    if rep.1.isEmpty then ([], false)
    else
      match rep.1.find? is_goal with
      | some state => (state.moves_made, true)
      | none =>
        let state_action_pairs := rep.1.filterMap (fun s =>
          let valid_actions := get_valid_actions s
          if valid_actions.isEmpty then none else some (s, valid_actions))
        let state_rankings := rankFn state_action_pairs
        let expanded := expandRound cfg.beam_width state_rankings visited
        if expanded.2.isEmpty then
          solveLoop cfg rankFn evalFn fuel [] rep.2 expanded.1 evaluation_history
        else
          let evaluated := evalFn expanded.2 evaluation_history
          let new_beam := evaluated.1.take cfg.beam_width
          let potential_backups := evaluated.1.drop cfg.beam_width
          let new_backup := potential_backups.foldl (fun bs st =>
            if evaluated.2.isEmpty then bs
            else bs ++ [(lookupBackupScore evaluated.2 evaluated.1.length st, st)]) rep.2
          let trimmed :=
            if new_backup.length > cfg.backup_pool_size then
              (insSortBy (fun a b : ℚ × TowerOfHanoiState => decide (a.1 ≥ b.1))
                new_backup).take cfg.backup_pool_size
            else new_backup
          solveLoop cfg rankFn evalFn fuel new_beam trimmed expanded.1 evaluated.2

/-- `GenericLLMGuidedSolver.solve`: beam `[initial_state]`, empty backup
pool and history, visited set seeded with the initial serialized payload. -/
def solve (cfg : SolverConfig) (rankFn : RankFn) (evalFn : EvalFn)
    (initial_state : TowerOfHanoiState) : List MoveModel × Bool :=
  solveLoop cfg rankFn evalFn cfg.max_depth [initial_state] []
    [stateKey initial_state] []

/-- `solveLoop` instrumented with a ghost log of every serialized payload
generated into the frontier (exactly the keys appended to the visited set);
the erasure theorem inside C4 shows the instrumentation does not change the
result. -/
def solveLoopT (cfg : SolverConfig) (rankFn : RankFn) (evalFn : EvalFn) :
    Nat → List TowerOfHanoiState → List (ℚ × TowerOfHanoiState) → List String →
    List EvalHistEntry → List String → (List MoveModel × Bool) × List String
  | 0, _, _, _, _, genLog => (([], false), genLog)
  | fuel + 1, beam, backup_states, visited, evaluation_history, genLog =>
    let rep := replenish cfg beam backup_states
    if rep.1.isEmpty then (([], false), genLog)
    else
      match rep.1.find? is_goal with
      | some state => ((state.moves_made, true), genLog)
      | none =>
        let state_action_pairs := rep.1.filterMap (fun s =>
          let valid_actions := get_valid_actions s
          if valid_actions.isEmpty then none else some (s, valid_actions))
        let state_rankings := rankFn state_action_pairs
        let expanded := expandRound cfg.beam_width state_rankings visited
        let newLog := genLog ++ expanded.1.drop visited.length
        if expanded.2.isEmpty then
          solveLoopT cfg rankFn evalFn fuel [] rep.2 expanded.1 evaluation_history newLog
        else
          let evaluated := evalFn expanded.2 evaluation_history
          let new_beam := evaluated.1.take cfg.beam_width
          let potential_backups := evaluated.1.drop cfg.beam_width
          let new_backup := potential_backups.foldl (fun bs st =>
            if evaluated.2.isEmpty then bs
            else bs ++ [(lookupBackupScore evaluated.2 evaluated.1.length st, st)]) rep.2
          let trimmed :=
            if new_backup.length > cfg.backup_pool_size then
              (insSortBy (fun a b : ℚ × TowerOfHanoiState => decide (a.1 ≥ b.1))
                new_backup).take cfg.backup_pool_size
            else new_backup
          solveLoopT cfg rankFn evalFn fuel new_beam trimmed expanded.1 evaluated.2 newLog

/-- The log of all serialized payloads generated during a full `solve` run,
seeded (like the visited set) with the initial state's payload. -/
def solveTrace (cfg : SolverConfig) (rankFn : RankFn) (evalFn : EvalFn)
    (initial_state : TowerOfHanoiState) : List String :=
  (solveLoopT cfg rankFn evalFn cfg.max_depth [initial_state] []
    [stateKey initial_state] [] [stateKey initial_state]).2

/-! ### The visited-set / generation invariant (C4) -/

theorem foldl_preserves {α β : Type} (P : β → Prop) (f : β → α → β)
    (hstep : ∀ b a, P b → P (f b a)) :
    ∀ (l : List α) (b : β), P b → P (l.foldl f b) := by
  intro l
  induction l with
  | nil => intro b hb; exact hb
  | cons x xs ih => intro b hb; exact ih _ (hstep b x hb)

/-- The accumulator `(visited, next_states)` extends its starting value
`(v₀, n₀)` by a block of fresh states: the appended visited keys are exactly
the appended states' serialized payloads, pairwise distinct and absent from
the starting visited set. -/
def ExtP (v₀ : List String) (n₀ : List TowerOfHanoiState)
    (acc : List String × List TowerOfHanoiState) : Prop :=
  ∃ ns : List TowerOfHanoiState,
    acc.1 = v₀ ++ ns.map stateKey ∧ (ns.map stateKey).Nodup ∧
    (∀ k ∈ ns.map stateKey, k ∉ v₀) ∧ acc.2 = n₀ ++ ns

theorem dedupAdd_ext {v₀ : List String} {n₀ : List TowerOfHanoiState}
    (acc : List String × List TowerOfHanoiState) (s : TowerOfHanoiState)
    (h : ExtP v₀ n₀ acc) : ExtP v₀ n₀ (dedupAdd acc s) := by
  obtain ⟨ns, h1, h2, h3, h4⟩ := h
  rw [dedupAdd]
  split_ifs with hmem
  · exact ⟨ns, h1, h2, h3, h4⟩
  · have hk : stateKey s ∉ v₀ ++ ns.map stateKey := by rw [← h1]; exact hmem
    rw [List.mem_append] at hk
    push_neg at hk
    refine ⟨ns ++ [s], ?_, ?_, ?_, ?_⟩
    · rw [List.map_append, ← List.append_assoc, h1]
      rfl
    · rw [List.map_append]
      refine List.Nodup.append h2 (List.nodup_singleton _) ?_
      intro a ha hb
      rw [List.map_singleton, List.mem_singleton] at hb
      rw [hb] at ha
      exact hk.2 ha
    · intro k hkmem
      rw [List.map_append, List.mem_append] at hkmem
      rcases hkmem with h | h
      · exact h3 k h
      · rw [List.map_singleton, List.mem_singleton] at h
        rw [h]
        exact hk.1
    · rw [h4, List.append_assoc]

theorem singleMoves_ext {v₀ : List String} {n₀ : List TowerOfHanoiState}
    (bw : Nat) (state : TowerOfHanoiState) (ranked : List MoveModel)
    (acc : List String × List TowerOfHanoiState) (h : ExtP v₀ n₀ acc) :
    ExtP v₀ n₀ (singleMoves bw state ranked acc) := by
  rw [singleMoves]
  refine foldl_preserves _ _ ?_ _ _ h
  intro b a hb
  split_ifs
  · exact hb
  · exact hb
  · exact dedupAdd_ext _ _ hb

theorem twoMoveSeqs_ext {v₀ : List String} {n₀ : List TowerOfHanoiState}
    (state : TowerOfHanoiState) (ranked : List MoveModel)
    (acc : List String × List TowerOfHanoiState) (h : ExtP v₀ n₀ acc) :
    ExtP v₀ n₀ (twoMoveSeqs state ranked acc) := by
  rw [twoMoveSeqs]
  refine foldl_preserves _ _ ?_ _ _ h
  intro b a hb
  split_ifs
  · exact hb
  · exact foldl_preserves _ _ (fun b2 a2 hb2 => dedupAdd_ext _ _ hb2) _ _ hb

theorem threeMoveSeqs_ext {v₀ : List String} {n₀ : List TowerOfHanoiState}
    (state : TowerOfHanoiState) (ranked : List MoveModel)
    (acc : List String × List TowerOfHanoiState) (h : ExtP v₀ n₀ acc) :
    ExtP v₀ n₀ (threeMoveSeqs state ranked acc) := by
  rw [threeMoveSeqs]
  refine foldl_preserves _ _ ?_ _ _ h
  intro b a hb
  split_ifs
  · exact hb
  · exact foldl_preserves _ _
      (fun b2 a2 hb2 => foldl_preserves _ _ (fun b3 a3 hb3 => dedupAdd_ext _ _ hb3) _ _ hb2)
      _ _ hb

theorem processRanked_ext {v₀ : List String} {n₀ : List TowerOfHanoiState}
    (bw : Nat) (p : TowerOfHanoiState × List MoveModel)
    (acc : List String × List TowerOfHanoiState) (h : ExtP v₀ n₀ acc) :
    ExtP v₀ n₀ (processRanked bw p acc) := by
  rw [processRanked]
  split_ifs
  · exact threeMoveSeqs_ext _ _ _ (twoMoveSeqs_ext _ _ _ (singleMoves_ext _ _ _ _ h))
  · exact singleMoves_ext _ _ _ _ h

/-- The per-round expansion: the updated visited set is the input visited set
extended by exactly the serialized payloads of the generated states, which
are pairwise distinct and were not previously visited. -/
theorem expandRound_spec (bw : Nat) (rankings : List (TowerOfHanoiState × List MoveModel))
    (v : List String) :
    ∃ ns : List TowerOfHanoiState,
      (expandRound bw rankings v).1 = v ++ ns.map stateKey ∧
      (ns.map stateKey).Nodup ∧ (∀ k ∈ ns.map stateKey, k ∉ v) ∧
      (expandRound bw rankings v).2 = ns := by
  have h : ExtP v [] (expandRound bw rankings v) := by
    rw [expandRound]
    refine foldl_preserves _ _ ?_ _ _ ?_
    · intro b a hb
      exact processRanked_ext _ _ _ hb
    · exact ⟨[], by simp, by simp, by simp, by simp⟩
  obtain ⟨ns, h1, h2, h3, h4⟩ := h
  exact ⟨ns, h1, h2, h3, by simpa using h4⟩

/-- Across a whole run, the generation log stays duplicate-free: the invariant
is that the log is duplicate-free and contained in the visited set. -/
theorem solveLoopT_log (cfg : SolverConfig) (rankFn : RankFn) (evalFn : EvalFn) :
    ∀ (fuel : Nat) (beam : List TowerOfHanoiState)
      (backup : List (ℚ × TowerOfHanoiState)) (visited : List String)
      (eh : List EvalHistEntry) (genLog : List String),
      genLog.Nodup → (∀ k ∈ genLog, k ∈ visited) →
      ((solveLoopT cfg rankFn evalFn fuel beam backup visited eh genLog).2).Nodup := by
  intro fuel
  induction fuel with
  | zero =>
    intro beam backup visited eh genLog hnd _
    simpa [solveLoopT] using hnd
  | succ n ih =>
    intro beam backup visited eh genLog hnd hsub
    rw [solveLoopT]
    obtain ⟨ns, he1, he2, he3, he4⟩ := expandRound_spec cfg.beam_width
      (rankFn ((replenish cfg beam backup).1.filterMap (fun s =>
        if (get_valid_actions s).isEmpty then none else some (s, get_valid_actions s))))
      visited
    by_cases hbe : (replenish cfg beam backup).1.isEmpty
    · simp only [hbe, if_true]
      exact hnd
    · simp only [hbe, Bool.false_eq_true, if_false]
      cases hfind : (replenish cfg beam backup).1.find? is_goal with
      | some g => simp only [hfind]; exact hnd
      | none =>
        simp only [hfind]
        have hdrop : (expandRound cfg.beam_width
            (rankFn ((replenish cfg beam backup).1.filterMap (fun s =>
              if (get_valid_actions s).isEmpty then none
              else some (s, get_valid_actions s)))) visited).1.drop visited.length =
            ns.map stateKey := by
          rw [he1, List.drop_left]
        have hnd2 : (genLog ++ ns.map stateKey).Nodup := by
          refine List.Nodup.append hnd he2 ?_
          intro a ha hb
          exact he3 a hb (hsub a ha)
        have hsub2 : ∀ k ∈ genLog ++ ns.map stateKey,
            k ∈ (expandRound cfg.beam_width
              (rankFn ((replenish cfg beam backup).1.filterMap (fun s =>
                if (get_valid_actions s).isEmpty then none
                else some (s, get_valid_actions s)))) visited).1 := by
          intro k hk
          rw [he1, List.mem_append]
          rw [List.mem_append] at hk
          rcases hk with h | h
          · exact Or.inl (hsub k h)
          · exact Or.inr h
        rw [hdrop]
        split_ifs <;> exact ih _ _ _ _ _ hnd2 hsub2

/-- The instrumentation is observationally transparent: the traced loop
returns the same result as `solveLoop`. -/
theorem solveLoopT_fst (cfg : SolverConfig) (rankFn : RankFn) (evalFn : EvalFn) :
    ∀ (fuel : Nat) (beam : List TowerOfHanoiState)
      (backup : List (ℚ × TowerOfHanoiState)) (visited : List String)
      (eh : List EvalHistEntry) (genLog : List String),
      (solveLoopT cfg rankFn evalFn fuel beam backup visited eh genLog).1 =
        solveLoop cfg rankFn evalFn fuel beam backup visited eh := by
  intro fuel
  induction fuel with
  | zero => intro beam backup visited eh genLog; rfl
  | succ n ih =>
    intro beam backup visited eh genLog
    rw [solveLoopT, solveLoop]
    by_cases hbe : (replenish cfg beam backup).1.isEmpty
    · simp only [hbe, if_true]
    · simp only [hbe, Bool.false_eq_true, if_false]
      cases hfind : (replenish cfg beam backup).1.find? is_goal with
      | some g => simp only [hfind]
      | none =>
        simp only [hfind]
        split_ifs <;> exact ih _ _ _ _ _

/--
C4: (1) over a whole `solve` run — for every configuration, ranking dispatch,
evaluation dispatch and initial state — the log of serialized payloads
generated into the frontier (seeded with the initial payload, extended each
round by the keys the expansion marked visited) has no duplicates: no
serialized domain configuration is ever generated into the frontier twice;
(2) each round's expansion only grows the visited set, by exactly the
serialized payloads of the states it appends, each absent from the visited
set at the moment of insertion and marked visited upon insertion;
(3) the generation log is ghost instrumentation: the traced loop computes
exactly `solveLoop`.
-/
theorem claim_C4 :
    (∀ (cfg : SolverConfig) (rankFn : RankFn) (evalFn : EvalFn)
        (init : TowerOfHanoiState), (solveTrace cfg rankFn evalFn init).Nodup) ∧
    (∀ (bw : Nat) (rankings : List (TowerOfHanoiState × List MoveModel))
        (v : List String),
      ∃ ns : List TowerOfHanoiState,
        (expandRound bw rankings v).1 = v ++ ns.map stateKey ∧
        (ns.map stateKey).Nodup ∧ (∀ k ∈ ns.map stateKey, k ∉ v) ∧
        (expandRound bw rankings v).2 = ns) ∧
    (∀ (cfg : SolverConfig) (rankFn : RankFn) (evalFn : EvalFn) (fuel : Nat)
        (beam : List TowerOfHanoiState) (backup : List (ℚ × TowerOfHanoiState))
        (visited : List String) (eh : List EvalHistEntry) (genLog : List String),
      (solveLoopT cfg rankFn evalFn fuel beam backup visited eh genLog).1 =
        solveLoop cfg rankFn evalFn fuel beam backup visited eh) := by
  refine ⟨?_, expandRound_spec, solveLoopT_fst⟩
  intro cfg rankFn evalFn init
  rw [solveTrace]
  refine solveLoopT_log cfg rankFn evalFn _ _ _ _ _ _ (List.nodup_singleton _) ?_
  intro k hk
  exact hk

/-! ### The sequence-extension heuristic (C7) -/

theorem foldl_filter {α β : Type} (p : α → Bool) (g : β → α → β) :
    ∀ (l : List α) (b : β),
      (l.filter p).foldl g b = l.foldl (fun acc a => if p a then g acc a else acc) b := by
  intro l
  induction l with
  | nil => intro b; rfl
  | cons x xs ih =>
    intro b
    rw [List.filter_cons]
    by_cases hp : p x
    · rw [if_pos hp, List.foldl_cons, List.foldl_cons, if_pos hp, ih]
    · rw [if_neg hp, List.foldl_cons, if_neg hp, ih]

theorem foldl_flatMap {α β γ : Type} (f : α → List γ) (g : β → γ → β) :
    ∀ (l : List α) (b : β),
      (l.flatMap f).foldl g b = l.foldl (fun acc a => (f a).foldl g acc) b := by
  intro l
  induction l with
  | nil => intro b; rfl
  | cons x xs ih =>
    intro b
    rw [List.flatMap_cons, List.foldl_append, List.foldl_cons, ih]

/-- Fold the guarded frontier insertion over a whole list of candidates. -/
def dedupAddAll (acc : List String × List TowerOfHanoiState)
    (l : List TowerOfHanoiState) : List String × List TowerOfHanoiState :=
  l.foldl dedupAdd acc

/-- The 2-move lookahead candidates, as a flat list: each valid action among
the top 3 ranked first moves, composed with each of the first 2 valid actions
of the resulting intermediate state, carrying the parent's evaluation
history. -/
def twoMoveCandidates (state : TowerOfHanoiState) (ranked : List MoveModel) :
    List TowerOfHanoiState :=
  ((ranked.take (min 3 ranked.length)).filter (fun a => is_valid_action state a)).flatMap
    (fun first_action =>
      ((get_valid_actions (apply_action state first_action)).take 2).map
        (fun second_action =>
          withHist state.evaluation_history
            (apply_action (apply_action state first_action) second_action)))

/-- The 3-move lookahead candidates, as a flat list: top 2 valid ranked first
moves × first 2 valid second moves × first valid third move. -/
def threeMoveCandidates (state : TowerOfHanoiState) (ranked : List MoveModel) :
    List TowerOfHanoiState :=
  ((ranked.take (min 2 ranked.length)).filter (fun a => is_valid_action state a)).flatMap
    (fun first_action =>
      ((get_valid_actions (apply_action state first_action)).take 2).flatMap
        (fun second_action =>
          ((get_valid_actions
              (apply_action (apply_action state first_action) second_action)).take 1).map
            (fun third_action =>
              withHist state.evaluation_history
                (apply_action
                  (apply_action (apply_action state first_action) second_action)
                  third_action))))

theorem twoMoveSeqs_eq (state : TowerOfHanoiState) (ranked : List MoveModel)
    (acc : List String × List TowerOfHanoiState) :
    twoMoveSeqs state ranked acc = dedupAddAll acc (twoMoveCandidates state ranked) := by
  simp only [twoMoveSeqs, twoMoveCandidates, dedupAddAll]
  rw [foldl_flatMap, foldl_filter]
  have hstep :
      (fun (acc : List String × List TowerOfHanoiState) (first_action : MoveModel) =>
        if !(is_valid_action state first_action) then acc
        else
          ((get_valid_actions (apply_action state first_action)).take 2).foldl
            (fun acc second_action =>
              dedupAdd acc (withHist state.evaluation_history
                (apply_action (apply_action state first_action) second_action))) acc) =
      (fun acc first_action =>
        if is_valid_action state first_action then
          (((get_valid_actions (apply_action state first_action)).take 2).map
            (fun second_action =>
              withHist state.evaluation_history
                (apply_action (apply_action state first_action) second_action))).foldl
            dedupAdd acc
        else acc) := by
    funext acc a
    by_cases hv : is_valid_action state a
    · rw [if_pos hv, if_neg (by simp [hv]), List.foldl_map]
    · rw [if_neg hv, if_pos (by simp [hv])]
  rw [hstep]

theorem threeMoveSeqs_eq (state : TowerOfHanoiState) (ranked : List MoveModel)
    (acc : List String × List TowerOfHanoiState) :
    threeMoveSeqs state ranked acc = dedupAddAll acc (threeMoveCandidates state ranked) := by
  simp only [threeMoveSeqs, threeMoveCandidates, dedupAddAll]
  rw [foldl_flatMap, foldl_filter]
  have hstep :
      (fun (acc : List String × List TowerOfHanoiState) (first_action : MoveModel) =>
        if !(is_valid_action state first_action) then acc
        else
          ((get_valid_actions (apply_action state first_action)).take 2).foldl
            (fun acc second_action =>
              ((get_valid_actions
                  (apply_action (apply_action state first_action) second_action)).take 1).foldl
                (fun acc third_action =>
                  dedupAdd acc (withHist state.evaluation_history
                    (apply_action
                      (apply_action (apply_action state first_action) second_action)
                      third_action))) acc) acc) =
      (fun acc first_action =>
        if is_valid_action state first_action then
          (((get_valid_actions (apply_action state first_action)).take 2).flatMap
            (fun second_action =>
              ((get_valid_actions
                  (apply_action (apply_action state first_action) second_action)).take 1).map
                (fun third_action =>
                  withHist state.evaluation_history
                    (apply_action
                      (apply_action (apply_action state first_action) second_action)
                      third_action)))).foldl dedupAdd acc
        else acc) := by
    funext acc a
    by_cases hv : is_valid_action state a
    · rw [if_pos hv, if_neg (by simp [hv]), foldl_flatMap]
      have hinner :
          (fun (acc2 : List String × List TowerOfHanoiState) (second_action : MoveModel) =>
            ((get_valid_actions
                (apply_action (apply_action state a) second_action)).take 1).foldl
              (fun acc3 third_action =>
                dedupAdd acc3 (withHist state.evaluation_history
                  (apply_action (apply_action (apply_action state a) second_action)
                    third_action))) acc2) =
          (fun acc2 second_action =>
            (((get_valid_actions
                (apply_action (apply_action state a) second_action)).take 1).map
              (fun third_action =>
                withHist state.evaluation_history
                  (apply_action (apply_action (apply_action state a) second_action)
                    third_action))).foldl dedupAdd acc2) := by
        funext acc2 sa
        rw [List.foldl_map]
      rw [hinner]
    · rw [if_neg hv, if_pos (by simp [hv])]
  rw [hstep]

/--
C7: a ranked beam state is given 2-move and 3-move lookahead states exactly
when its most recent evaluation score exceeds 0.65: below or at the threshold
(or with no evaluations yet) the expansion is exactly the single-move
expansion; above it, the expansion additionally dedup-inserts the 2-move
candidates (top 3 valid ranked first moves × first 2 valid second moves) and
then the 3-move candidates (top 2 × 2 × 1), each still passing the
visited-set guard.
-/
theorem claim_C7 (bw : Nat) (state : TowerOfHanoiState) (ranked : List MoveModel)
    (acc : List String × List TowerOfHanoiState) :
    (isHighScoring state = false →
      processRanked bw (state, ranked) acc = singleMoves bw state ranked acc) ∧
    (isHighScoring state = true →
      processRanked bw (state, ranked) acc =
        dedupAddAll (dedupAddAll (singleMoves bw state ranked acc)
          (twoMoveCandidates state ranked)) (threeMoveCandidates state ranked)) := by
  constructor
  · intro h
    simp [processRanked, h]
  · intro h
    simp only [processRanked, h, if_true]
    rw [twoMoveSeqs_eq, threeMoveSeqs_eq]

/-- A beam state whose last evaluation scored 1 (above the 0.65 threshold). -/
def highState : TowerOfHanoiState :=
  { state_data := [("A", [2, 1]), ("B", []), ("C", [])],
    evaluation_history := [histRecord 1] }

/-- A beam state whose last evaluation scored 0 (below the threshold). -/
def lowState : TowerOfHanoiState :=
  { state_data := [("A", [2, 1]), ("B", []), ("C", [])],
    evaluation_history := [histRecord 0] }

/-- Witness for C7 at a concrete below-threshold and above-threshold state. -/
theorem claim_C7_witness :
    (processRanked 3 (lowState, get_valid_actions lowState) ([], []) =
      singleMoves 3 lowState (get_valid_actions lowState) ([], [])) ∧
    (processRanked 3 (highState, get_valid_actions highState) ([], []) =
      dedupAddAll (dedupAddAll
        (singleMoves 3 highState (get_valid_actions highState) ([], []))
        (twoMoveCandidates highState (get_valid_actions highState)))
        (threeMoveCandidates highState (get_valid_actions highState))) :=
  ⟨(claim_C7 3 lowState (get_valid_actions lowState) ([], [])).1 (by decide),
   (claim_C7 3 highState (get_valid_actions highState) ([], [])).2 (by decide)⟩

/-! ### Replenishment and termination (C8, C9) -/

/--
C8: at the start of a round with an empty beam and a non-empty backup pool,
(1) with a positive `beam_width`, the run continues exactly as if the beam
were the `beam_width` highest-scoring backup entries (score-descending stable
sort) and those entries were removed from the pool — the search does not
terminate there; (2) the replenishment order is faithful: the sorted pool is
a permutation of the pool, pairwise score-descending; (3) only when the beam
is still empty after replenishment (`beam_width = 0`) does the round
terminate with failure.
-/
theorem claim_C8 (cfg : SolverConfig) (rankFn : RankFn) (evalFn : EvalFn)
    (fuel : Nat) (backup : List (ℚ × TowerOfHanoiState)) (visited : List String)
    (eh : List EvalHistEntry) :
    (backup ≠ [] → 0 < cfg.beam_width →
      solveLoop cfg rankFn evalFn (fuel + 1) [] backup visited eh =
        solveLoop cfg rankFn evalFn (fuel + 1)
          (((insSortBy (fun a b : ℚ × TowerOfHanoiState => decide (a.1 ≥ b.1))
              backup).take cfg.beam_width).map (fun x => x.2))
          ((insSortBy (fun a b : ℚ × TowerOfHanoiState => decide (a.1 ≥ b.1))
              backup).drop cfg.beam_width) visited eh) ∧
    ((insSortBy (fun a b : ℚ × TowerOfHanoiState => decide (a.1 ≥ b.1)) backup).Perm
        backup ∧
      (insSortBy (fun a b : ℚ × TowerOfHanoiState => decide (a.1 ≥ b.1)) backup).Pairwise
        (fun a b => a.1 ≥ b.1)) ∧
    (backup ≠ [] → cfg.beam_width = 0 →
      solveLoop cfg rankFn evalFn (fuel + 1) [] backup visited eh = ([], false)) := by
  refine ⟨?_, ⟨insSortBy_perm _ _, ?_⟩, ?_⟩
  · intro hb hbw
    have hbe : backup.isEmpty = false := by
      cases backup with
      | nil => exact absurd rfl hb
      | cons x xs => rfl
    have hrep1 : replenish cfg [] backup =
        (((insSortBy (fun a b : ℚ × TowerOfHanoiState => decide (a.1 ≥ b.1))
            backup).take cfg.beam_width).map (fun x => x.2),
          (insSortBy (fun a b : ℚ × TowerOfHanoiState => decide (a.1 ≥ b.1))
            backup).drop cfg.beam_width) := by
      rw [replenish]
      rw [if_pos (by simp [hbe])]
    have hbeam : (((insSortBy (fun a b : ℚ × TowerOfHanoiState => decide (a.1 ≥ b.1))
        backup).take cfg.beam_width).map (fun x => x.2)).isEmpty = false := by
      rw [Bool.eq_false_iff]
      intro hcontra
      rw [List.isEmpty_iff] at hcontra
      have hlen := congrArg List.length hcontra
      rw [List.length_map, List.length_take, (insSortBy_perm _ backup).length_eq,
        List.length_nil] at hlen
      have hbl : 0 < backup.length := List.length_pos_of_ne_nil hb
      omega
    have hrep2 : replenish cfg
        (((insSortBy (fun a b : ℚ × TowerOfHanoiState => decide (a.1 ≥ b.1))
            backup).take cfg.beam_width).map (fun x => x.2))
        ((insSortBy (fun a b : ℚ × TowerOfHanoiState => decide (a.1 ≥ b.1))
            backup).drop cfg.beam_width) =
        (((insSortBy (fun a b : ℚ × TowerOfHanoiState => decide (a.1 ≥ b.1))
            backup).take cfg.beam_width).map (fun x => x.2),
          (insSortBy (fun a b : ℚ × TowerOfHanoiState => decide (a.1 ≥ b.1))
            backup).drop cfg.beam_width) := by
      rw [replenish, hbeam]
      rfl
    rw [solveLoop, solveLoop, hrep1, hrep2]
  · have := insSortBy_pairwise (fun a b : ℚ × TowerOfHanoiState => decide (a.1 ≥ b.1))
      (fun a b => by rcases le_total a.1 b.1 with h | h <;> simp [h])
      (fun a b c hab hbc => by
        simp only [decide_eq_true_eq] at hab hbc ⊢
        exact le_trans hbc hab) backup
    exact this.imp (fun h => by simpa using h)
  · intro hb hbw
    rw [solveLoop]
    have hbe : backup.isEmpty = false := by
      cases backup with
      | nil => exact absurd rfl hb
      | cons x xs => rfl
    have hrep1 : replenish cfg [] backup =
        (((insSortBy (fun a b : ℚ × TowerOfHanoiState => decide (a.1 ≥ b.1))
            backup).take cfg.beam_width).map (fun x => x.2),
          (insSortBy (fun a b : ℚ × TowerOfHanoiState => decide (a.1 ≥ b.1))
            backup).drop cfg.beam_width) := by
      rw [replenish]
      rw [if_pos (by simp [hbe])]
    rw [hrep1]
    simp [hbw]

/--
C9: `solve`'s rounds return (goalState.moves, true) as soon as some beam
state passes the goal check (the first such state in beam order); they return
`([], false)` normally — never raising — both when the round budget is
exhausted and when beam and backup pool are both empty.
-/
theorem claim_C9 (cfg : SolverConfig) (rankFn : RankFn) (evalFn : EvalFn) :
    (∀ (fuel : Nat) (beam : List TowerOfHanoiState)
        (backup : List (ℚ × TowerOfHanoiState)) (visited : List String)
        (eh : List EvalHistEntry) (g : TowerOfHanoiState),
      beam.find? is_goal = some g →
      solveLoop cfg rankFn evalFn (fuel + 1) beam backup visited eh =
        (g.moves_made, true)) ∧
    (∀ (beam : List TowerOfHanoiState) (backup : List (ℚ × TowerOfHanoiState))
        (visited : List String) (eh : List EvalHistEntry),
      solveLoop cfg rankFn evalFn 0 beam backup visited eh = ([], false)) ∧
    (∀ (fuel : Nat) (visited : List String) (eh : List EvalHistEntry),
      solveLoop cfg rankFn evalFn (fuel + 1) [] [] visited eh = ([], false)) := by
  refine ⟨?_, fun beam backup visited eh => rfl, ?_⟩
  · intro fuel beam backup visited eh g hfind
    have hbe : beam.isEmpty = false := by
      cases beam with
      | nil => rw [List.find?_nil] at hfind; exact absurd hfind (by simp)
      | cons x xs => rfl
    have hrep : replenish cfg beam backup = (beam, backup) := by
      rw [replenish, hbe]
      rfl
    rw [solveLoop, hrep]
    simp only [hbe, Bool.false_eq_true, if_false, hfind]
  · intro fuel visited eh
    rw [solveLoop]
    have hrep : replenish cfg [] [] = ([], []) := by
      rw [replenish]
      rfl
    rw [hrep]
    rfl

/-- Shared concrete data for the C8/C9 witnesses. -/
def cfg0 : SolverConfig := { max_depth := 50, beam_width := 3, backup_pool_size := 15 }

/-- A configuration with `beam_width = 0` (degenerate replenishment). -/
def cfgZero : SolverConfig := { max_depth := 50, beam_width := 0, backup_pool_size := 0 }

/-- The identity ranking dispatch (a legal `RankFn`). -/
def idRankFn : RankFn := fun l => l

/-- An evaluation dispatch that returns its input unchanged (a legal `EvalFn`). -/
def idEvalFn : EvalFn := fun s h => (s, h)

/-- A one-entry backup pool. -/
def backup0 : List (ℚ × TowerOfHanoiState) := [(1, lowState)]

/-- A goal state: the single disk is on tower C. -/
def goalState : TowerOfHanoiState :=
  { state_data := [("A", []), ("B", []), ("C", [1])] }

/-- Witness for C8 at a concrete non-empty pool, for a positive and a zero
beam width. -/
theorem claim_C8_witness :
    (solveLoop cfg0 idRankFn idEvalFn 1 [] backup0 [] [] =
      solveLoop cfg0 idRankFn idEvalFn 1
        (((insSortBy (fun a b : ℚ × TowerOfHanoiState => decide (a.1 ≥ b.1))
            backup0).take cfg0.beam_width).map (fun x => x.2))
        ((insSortBy (fun a b : ℚ × TowerOfHanoiState => decide (a.1 ≥ b.1))
            backup0).drop cfg0.beam_width) [] []) ∧
    (solveLoop cfgZero idRankFn idEvalFn 1 [] backup0 [] [] = ([], false)) :=
  ⟨(claim_C8 cfg0 idRankFn idEvalFn 0 backup0 [] []).1 (by decide) (by decide),
   (claim_C8 cfgZero idRankFn idEvalFn 0 backup0 [] []).2.2 (by decide) (by decide)⟩

/-- Witness for C9: goal detection, fuel exhaustion, and empty beam+pool. -/
theorem claim_C9_witness :
    (solveLoop cfg0 idRankFn idEvalFn 5 [goalState] [] [] [] =
      (goalState.moves_made, true)) ∧
    (solveLoop cfg0 idRankFn idEvalFn 0 [goalState] [] [] [] = ([], false)) ∧
    (solveLoop cfg0 idRankFn idEvalFn 5 [] [] [] [] = ([], false)) :=
  ⟨(claim_C9 cfg0 idRankFn idEvalFn).1 4 [goalState] [] [] [] goalState (by decide),
   (claim_C9 cfg0 idRankFn idEvalFn).2.1 [goalState] [] [] [],
   (claim_C9 cfg0 idRankFn idEvalFn).2.2 4 [] []⟩
